import Mathlib

/-!
Verification of the boot-sequence recorder in `memory_snapshot_db.py`
(FreeRTOS/seL4 debug-analysis scripts).

The development shallowly embeds the pieces of the program that the
claims are about:

* `GDBInterface._receive_response` and `GDBInterface.read_memory`
  (the Debug-Stub Client receive loop and memory-read parsing);
* `MemorySnapshotDB.save_memory_snapshot`, `save_instruction_trace`
  and `end_boot_session` (the Snapshot Store);
* `BootRecorder._determine_boot_stage`, `_capture_memory_regions`
  and `record_boot_sequence` (the Boot Recorder loop).

Bytes are modelled as `List Nat`, strings of the Python program as
Lean `String` or `List Char`.  The network is modelled as an oracle:
each loop step is given the program-counter value, a memory-read
oracle and the single-step outcome.  Wall-clock timestamps are not
modelled; the session's `end_time` column is abstracted to a Boolean
`ended` flag (set exactly when `end_boot_session` runs).  The md5
checksum column is not modelled (no claim refers to it).
-/

/-- ASCII whitespace, as skipped by Python's `int(-,16)` and
`bytes.fromhex`. -/
def isPyWs (c : Char) : Bool :=
  c == ' ' || c == '\t' || c == '\n' || c == '\r' || c == '\x0b' || c == '\x0c'

/-- Value of a hexadecimal digit character, `none` for other characters. -/
def hexDigitVal (c : Char) : Option Nat :=
  if '0' ≤ c ∧ c ≤ '9' then some (c.toNat - 48)
  else if 'a' ≤ c ∧ c ≤ 'f' then some (c.toNat - 97 + 10)
  else if 'A' ≤ c ∧ c ≤ 'F' then some (c.toNat - 65 + 10)
  else none

/-- `startsWithChars p l` : does `l` begin with `p`? -/
def startsWithChars : List Char → List Char → Bool
  | [], _ => true
  | _ :: _, [] => false
  | p :: ps, c :: cs => p == c && startsWithChars ps cs

/-- Python's `sub in hay` substring test, on character lists. -/
def hasSubstrChars (hay sub : List Char) : Bool :=
  if startsWithChars sub hay then true
  else
    match hay with
    | [] => false
    | _ :: t => hasSubstrChars t sub

/-- Worker for `splitOnSub`; `fuel` only bounds the recursion depth (a
structural-recursion device: each step consumes at least one character,
so any `fuel ≥ l.length` computes the same splitting). -/
def splitOnSubGo (sep : List Char) : Nat → List Char → List (List Char)
  | _, [] => [[]]
  | 0, l => [l]
  | fuel + 1, c :: rest =>
    if startsWithChars sep (c :: rest) then
      [] :: splitOnSubGo sep fuel (rest.drop (sep.length - 1))
    else
      match splitOnSubGo sep fuel rest with
      | [] => [[c]]
      | g :: gs => (c :: g) :: gs

/-- Python's `str.split(sep)` for a non-empty separator: splits `l` at
every non-overlapping, leftmost-first occurrence of `sep`. -/
def splitOnSub (sep l : List Char) : List (List Char) :=
  splitOnSubGo sep l.length l

/-- Continuation of `parseHexDigits` after at least one digit has been
read into the accumulator `acc`. -/
def parseHexDigitsGo (acc : Nat) : List Char → Option Nat
  | [] => some acc
  | '_' :: rest =>
    match rest with
    | [] => none
    | c :: rest' =>
      match hexDigitVal c with
      | none => none
      | some v => parseHexDigitsGo (16 * acc + v) rest'
  | c :: rest =>
    match hexDigitVal c with
    | none => none
    | some v => parseHexDigitsGo (16 * acc + v) rest

/-- Hex digit string with Python's underscore rule:
`digit ("_"? digit)*` — an underscore may appear only between two
digits. -/
def parseHexDigits : List Char → Option Nat
  | [] => none
  | c :: rest =>
    match hexDigitVal c with
    | none => none
    | some v => parseHexDigitsGo v rest

/-- The part of a base-16 numeral after the `0x`/`0X` marker: one
underscore may directly follow the marker. -/
def pyIntHexTail : List Char → Option Nat
  | '_' :: rest => parseHexDigits rest
  | rest => parseHexDigits rest

/-- Python's `int(s, 16)` after sign removal: an optional `0x`/`0X`
marker (an underscore may directly follow it), then
underscore-separated hex digits. -/
def pyIntHexCore (s : List Char) : Option Nat :=
  match s with
  | '0' :: 'x' :: rest => pyIntHexTail rest
  | '0' :: 'X' :: rest => pyIntHexTail rest
  | _ => parseHexDigits s

/-- Python's `int(s, 16)`: strips surrounding ASCII whitespace, accepts
an optional sign, an optional `0x`/`0X` prefix and underscores between
digits; `none` models the `ValueError` raised on any other input.
Special case: `pyIntHexCore` tries the prefix rule first, so a bare
`"0x"`-prefixed numeral is accepted (as Python does for base 16). -/
def pyIntHex (s : List Char) : Option Int :=
  let t := (((s.dropWhile isPyWs).reverse.dropWhile isPyWs).reverse)
  match t with
  | '+' :: rest => (pyIntHexCore rest).map (fun n => (n : Int))
  | '-' :: rest => (pyIntHexCore rest).map (fun n => -(n : Int))
  | rest => (pyIntHexCore rest).map (fun n => (n : Int))

/-- Lower-case a character list, as Python's `str.lower()` on ASCII. -/
def toLowerChars (s : List Char) : List Char := s.map Char.toLower

/-- One hex digit character (lowercase), for `hexDigitChar n` with `n < 16`. -/
def hexDigitChar (n : Nat) : Char :=
  if n < 10 then Char.ofNat (48 + n) else Char.ofNat (87 + n)

/-- Python's `f"{n:08x}"` for `n < 2^32`: eight lowercase hex digits,
zero-padded. -/
def hex8 (n : Nat) : List Char :=
  [hexDigitChar (n / 16 ^ 7 % 16), hexDigitChar (n / 16 ^ 6 % 16),
   hexDigitChar (n / 16 ^ 5 % 16), hexDigitChar (n / 16 ^ 4 % 16),
   hexDigitChar (n / 16 ^ 3 % 16), hexDigitChar (n / 16 ^ 2 % 16),
   hexDigitChar (n / 16 % 16), hexDigitChar (n % 16)]

/-- `struct.pack('<I', w)` : the four little-endian bytes of a 32-bit word. -/
def packLE32 (w : Nat) : List Nat :=
  [w % 256, w / 256 % 256, w / 65536 % 256, w / 16777216 % 256]

/-- `startsWithBytes p l` : does the byte list `l` begin with `p`? -/
def startsWithBytes : List Nat → List Nat → Bool
  | [], _ => true
  | _ :: _, [] => false
  | p :: ps, c :: cs => p == c && startsWithBytes ps cs

/-- Python's `bytes.count(needle)` for a non-empty `needle`: the number
of non-overlapping occurrences, scanning left to right and skipping
past each match (for an empty needle Python returns `len + 1`; the
program only ever calls this with a 4-byte needle, and this model
returns `0` there). -/
def bytesCountGo (needle : List Nat) : List Nat → Nat → Nat
  | [], _ => 0
  | _ :: rest, skip + 1 => bytesCountGo needle rest skip
  | b :: rest, 0 =>
    if startsWithBytes needle (b :: rest) then
      1 + bytesCountGo needle rest (needle.length - 1)
    else
      bytesCountGo needle rest 0

def bytesCount (needle hay : List Nat) : Nat :=
  if needle = [] then 0 else bytesCountGo needle hay 0

/-- `n` back-to-back copies of the byte list `p`. -/
def repeatBytes (n : Nat) (p : List Nat) : List Nat :=
  match n with
  | 0 => []
  | n + 1 => p ++ repeatBytes n p

/-! ## Debug-Stub Client (`GDBInterface`) -/

/-- One terminator/acknowledgement character of `_receive_response`:
`'#' in response or '+' in response or '-' in response`. -/
def isRecvTerm (c : Char) : Bool := c == '#' || c == '+' || c == '-'

/-- The data accumulated by `_receive_response` after `n` iterations of
its `while True` loop: the concatenation of the first `n` chunks
delivered by `sock.recv`. -/
def recvAccum (chunks : Nat → List Char) : Nat → List Char
  | 0 => []
  | n + 1 => recvAccum chunks n ++ chunks n

/-- `_receive_response` returns after some finite number of `recv`
calls: some iteration's accumulated response contains a terminator or
acknowledgement character (the loop has no other exit and applies no
timeout). -/
def receiveHalts (chunks : Nat → List Char) : Prop :=
  ∃ n, (recvAccum chunks (n + 1)).any isRecvTerm = true

/-- `GDBInterface.read_memory`: the bytes returned for a raw response.
`none` models a transport error (an exception, caught and converted to
`b''`); `some r` is the received response text.  A well-framed
response `$<hex>#..` has its hex payload decoded; a malformed payload
(`bytes.fromhex` failure) or missing framing yields `b''`. -/
def hexPairsToBytes : List Char → Option (List Nat)
  | [] => some []
  | [_] => none
  | a :: b :: rest =>
    match hexDigitVal a, hexDigitVal b with
    | some x, some y => (hexPairsToBytes rest).map (fun l => (16 * x + y) :: l)
    | _, _ => none

/-- `bytes.fromhex`: ASCII whitespace is skipped, the remaining
characters must be an even number of hex digits. -/
def bytesFromHex (s : List Char) : Option (List Nat) :=
  hexPairsToBytes (s.filter (fun c => !(isPyWs c)))

/-- The hex payload of a response: `response[1:response.index('#')]`
(the characters after the leading `'$'` and before the first `'#'`). -/
def respPayload (r : String) : List Char :=
  (r.data.drop 1).takeWhile (fun c => !(c == '#'))

def read_memory_model (resp : Option String) : List Nat :=
  match resp with
  | none => []
  | some r =>
    if startsWithChars "$".data r.data && r.data.contains '#' then
      match bytesFromHex (respPayload r) with
      | some bs => bs
      | none => []
    else []

/-! ## Snapshot Store (`MemorySnapshotDB`) -/

/-- One row of the `memory_regions` table (the md5 `checksum` column is
not modelled). -/
structure RegionRow where
  region_name : String
  start_address : Int
  end_address : Int
  size : Nat
  data : List Nat
  expected_pattern : Option Nat
  pattern_matches : Nat
  deriving Repr, DecidableEq

/-- One row of the `memory_snapshots` table (`timestamp` not modelled;
`memory_regions` is the JSON list of region labels). -/
structure SnapshotRow where
  session_id : Nat
  boot_stage : String
  pc_address : Nat
  region_names : List String
  total_size : Nat
  deriving Repr, DecidableEq

/-- One row of the `instruction_traces` table (only the columns the
claims refer to; `timestamp`, `disassembly`, `registers`,
`stack_pointer` and `function_name` carry no claim content). -/
structure TraceRow where
  session_id : Nat
  sequence_number : Nat
  pc_address : Nat
  boot_stage : String
  deriving Repr, DecidableEq

/-- The store's state.  `committedTraces` counts the prefix of `traces`
already flushed by a `conn.commit()`; rows beyond it sit in the open
transaction (they get flushed by the next commit, in particular by
`end_boot_session`). `ended` models `end_time` being set. -/
structure DBState where
  traces : List TraceRow
  committedTraces : Nat
  snapshots : List SnapshotRow
  regionRows : List RegionRow
  ended : Bool
  deriving Repr, DecidableEq

def DBState.empty : DBState :=
  { traces := [], committedTraces := 0, snapshots := [], regionRows := [], ended := false }

/-- The keyword→pattern table of `save_memory_snapshot`, applied to the
lower-cased region label in the source's fixed order (`stack`, `data`,
`heap`, `pattern`). -/
def expectedPatternFor (label : String) : Option Nat :=
  let l := toLowerChars label.data
  if hasSubstrChars l "stack".data then some 0xDEADBEEF
  else if hasSubstrChars l "data".data then some 0x12345678
  else if hasSubstrChars l "heap".data then some 0xCAFEBABE
  else if hasSubstrChars l "pattern".data then some 0x55AA55AA
  else none

/-- The start address parsed from a region label:
`int(region_name.split('_0x')[1], 16)` when `'_0x' in region_name`,
else `0`.  `none` models the `ValueError` raised when the piece between
the first and second `'_0x'` is not a hexadecimal numeral. -/
def regionStartAddress (label : String) : Option Int :=
  if hasSubstrChars label.data "_0x".data then
    match splitOnSub "_0x".data label.data with
    | _ :: piece :: _ => pyIntHex piece
    | _ => none
  else
    some 0

/-- The `memory_regions` row built for one `(label, data)` entry of the
snapshot dictionary; `none` models the `ValueError` escaping
`save_memory_snapshot`. -/
def mkRegionRow (label : String) (data : List Nat) : Option RegionRow :=
  match regionStartAddress label with
  | none => none
  | some start =>
    let ep := expectedPatternFor label
    let pm :=
      match ep with
      | some w => bytesCount (packLE32 w) data
      | none => 0
    some { region_name := label
           start_address := start
           end_address := start + data.length
           size := data.length
           data := data
           expected_pattern := ep
           pattern_matches := pm }

/-- The region rows inserted by `save_memory_snapshot`'s `for` loop,
processed in dictionary order; the Boolean is `false` when a
`ValueError` aborted the loop (rows inserted before the failing entry
remain in the open transaction). -/
def buildRegionRows : List (String × List Nat) → List RegionRow × Bool
  | [] => ([], true)
  | (l, d) :: rest =>
    match mkRegionRow l d with
    | none => ([], false)
    | some r =>
      let (rs, ok) := buildRegionRows rest
      (r :: rs, ok)

/-- `MemorySnapshotDB.save_memory_snapshot`: inserts the snapshot
metadata row (total size = sum of region byte lengths, region-name
list = dictionary keys), then one region row per entry, then commits.
The Boolean is `false` when a `ValueError` escaped before the final
commit (the rows already inserted stay in the open transaction and
are flushed by a later commit). -/
def save_memory_snapshot (db : DBState) (sid : Nat) (stage : String) (pc : Nat)
    (md : List (String × List Nat)) : DBState × Bool :=
  let total := (md.map (fun r => r.2.length)).sum
  let snap : SnapshotRow :=
    { session_id := sid, boot_stage := stage, pc_address := pc
      region_names := md.map (fun r => r.1), total_size := total }
  let built := buildRegionRows md
  let db1 := { db with snapshots := db.snapshots ++ [snap]
                       regionRows := db.regionRows ++ built.1 }
  if built.2 then ({ db1 with committedTraces := db1.traces.length }, true)
  else (db1, false)

/-- `MemorySnapshotDB.save_instruction_trace`: appends one trace row;
commits when `sequence % 1000 == 0`. -/
def save_instruction_trace (db : DBState) (sid seq pc : Nat) (stage : String) : DBState :=
  let traces := db.traces ++
    [{ session_id := sid, sequence_number := seq, pc_address := pc, boot_stage := stage }]
  { db with traces := traces
            committedTraces := if seq % 1000 = 0 then traces.length else db.committedTraces }

/-- `MemorySnapshotDB.end_boot_session`: sets the session's end
timestamp and commits. -/
def end_boot_session (db : DBState) : DBState :=
  { db with ended := true, committedTraces := db.traces.length }

/-! ## Boot Recorder (`BootRecorder`) -/

/-- `BootRecorder.boot_stages`: the ordered stage table
`(name, startAddress, endAddressExclusive)`. -/
def bootStages : List (String × Nat × Nat) :=
  [("elfloader", 0x60000000, 0x61000000),
   ("seL4_boot", 0xe0000000, 0xe1000000),
   ("rootserver_start", 0x10000, 0x20000),
   ("camkes_init", 0x40000000, 0x40001000),
   ("freertos_main", 0x40000e70, 0x40001000),
   ("pattern_painting", 0x400008e8, 0x40001000),
   ("scheduler_start", 0x40003000, 0x40004000)]

/-- `BootRecorder._determine_boot_stage`, over an arbitrary stage
table: the name of the first entry whose half-open range contains the
program counter, else `"unknown"`. -/
def determineBootStageT : List (String × Nat × Nat) → Nat → String
  | [], _ => "unknown"
  | (n, s, e) :: rest, pc =>
    if s ≤ pc ∧ pc < e then n else determineBootStageT rest pc

def determineBootStage (pc : Nat) : String := determineBootStageT bootStages pc

/-- `BootRecorder.memory_regions`: `(name, startAddress, size)`, in the
source dictionary's insertion order. -/
def memoryRegions : List (String × Nat × Nat) :=
  [("guest_base", 0x40000000, 0x1000),
   ("stack_region", 0x41000000, 0x1000),
   ("data_region", 0x41200000, 0x1000),
   ("heap_region", 0x41400000, 0x1000),
   ("pattern_region", 0x42000000, 0x4000),
   ("uart_region", 0x9000000, 0x100)]

/-- The snapshot dictionary key `f"{region_name}_0x{start_addr:08x}"`. -/
def regionLabel (name : String) (addr : Nat) : String :=
  name ++ "_0x" ++ String.mk (hex8 addr)

/-- `BootRecorder._capture_memory_regions`: reads each configured
region through the memory-read oracle `mem` (address, size ↦ returned
bytes) and keeps only the regions whose read returned non-empty bytes
(`read_memory` itself never raises, so the `except` arm is dead). -/
def captureMemoryRegions (mem : Nat → Nat → List Nat) : List (String × List Nat) :=
  memoryRegions.filterMap (fun r =>
    let d := mem r.2.1 r.2.2
    if d = [] then none else some (regionLabel r.1 r.2.1, d))

/-- The environment's behaviour at one step of the recording loop:
the program-counter value obtained from `get_current_pc`, the
memory-read oracle for this step, and whether `single_step` reported a
trap-style stop. -/
structure StepInput where
  pc : Nat
  mem : Nat → Nat → List Nat
  stepOk : Bool

/-- The recorder's in-memory state: `self.current_stage` plus the
store. -/
structure RecState where
  currentStage : String
  db : DBState

/-- The supplementary snapshot label
`f"pattern_painting_step_{i//5000}"`. -/
def patternStepStage (i : Nat) : String :=
  "pattern_painting_step_" ++ toString (i / 5000)

/-- The tail of one loop iteration, after the stage-transition block:
save the instruction trace row (tagged with the already-updated
`current_stage`), stop if `single_step` failed, then possibly take the
supplementary pattern-painting snapshot.  The Boolean is `true` when
the loop continues with the next `i`. -/
def stepTail (inp : StepInput) (sid i : Nat) (st : RecState) : RecState × Bool :=
  let db2 := save_instruction_trace st.db sid i inp.pc st.currentStage
  if inp.stepOk = false then ({ st with db := db2 }, false)
  else if st.currentStage = "pattern_painting" ∧ i % 5000 = 0 then
    let res := save_memory_snapshot db2 sid (patternStepStage i) inp.pc
      (captureMemoryRegions inp.mem)
    ({ st with db := res.1 }, res.2)
  else ({ st with db := db2 }, true)

/-- One iteration of `record_boot_sequence`'s `for` loop at index `i`.
If the classified stage differs from `current_stage` and is not
`"unknown"`, the configured regions are captured and persisted before
`current_stage` is updated; a `ValueError` escaping
`save_memory_snapshot` aborts the iteration (leaving `current_stage`
unchanged and saving no trace row) and ends the loop.  Otherwise
`current_stage` ends up equal to the classified stage (a transition
into `"unknown"` updates it without a snapshot; an unchanged stage is
re-assigned the same value harmlessly). -/
def recordStep (inp : StepInput) (sid i : Nat) (st : RecState) : RecState × Bool :=
  let newStage := determineBootStage inp.pc
  if newStage ≠ st.currentStage ∧ newStage ≠ "unknown" then
    let res := save_memory_snapshot st.db sid newStage inp.pc
      (captureMemoryRegions inp.mem)
    if res.2 then stepTail inp sid i { currentStage := newStage, db := res.1 }
    else ({ st with db := res.1 }, false)
  else
    stepTail inp sid i { st with currentStage := newStage }

/-- The loop of `record_boot_sequence`, from index `i` with `fuel`
iterations of budget left. -/
def runFrom (inputs : Nat → StepInput) (sid : Nat) : Nat → Nat → RecState → RecState
  | _, 0, st => st
  | i, fuel + 1, st =>
    let r := recordStep (inputs i) sid i st
    if r.2 then runFrom inputs sid (i + 1) fuel r.1 else r.1

/-- `BootRecorder.record_boot_sequence`: run the loop for up to
`budget` instructions starting from the initial recorder state
(`current_stage = "unknown"`, empty store). -/
def record_boot_sequence (inputs : Nat → StepInput) (sid budget : Nat) : RecState :=
  runFrom inputs sid 0 budget { currentStage := "unknown", db := DBState.empty }

/-- A full recording run: `record_boot_sequence` followed by
`finish_recording` (which calls `end_boot_session`); `main` runs the
latter in a `finally`, so it executes on every exit path. -/
def runSession (inputs : Nat → StepInput) (sid budget : Nat) : DBState :=
  end_boot_session (record_boot_sequence inputs sid budget).db

/-! ## Claim-side definitions

These two definitions follow the wording of the claims being checked
against the code (for refutation by comparison with the code-derived
definitions above); they are not translations of the source. -/

/-- The pattern-match count as claim C1 describes it: the number of
non-overlapping, 4-byte-aligned occurrences of the 4-byte needle, i.e.
the number of aligned 4-byte chunks of `hay` equal to `needle`. -/
def claimAlignedMatches (needle hay : List Nat) : Nat :=
  (List.range (hay.length / 4)).countP
    (fun j => ((hay.drop (4 * j)).take 4).beq needle)

/-- Joins pieces back with the separator (used to recover the portion
of a label that follows the first occurrence of the separator). -/
def joinWithSep (sep : List Char) : List (List Char) → List Char
  | [] => []
  | [x] => x
  | x :: xs => x ++ sep ++ joinWithSep sep xs

/-- The start address as claim C10 describes it: the hexadecimal
number parsed from the portion of the region label following the
first `"_0x"`, and `0` when the label contains no `"_0x"`; `none` when
that portion is not a hexadecimal numeral. -/
def claimStartAddress (label : String) : Option Int :=
  if hasSubstrChars label.data "_0x".data then
    match splitOnSub "_0x".data label.data with
    | _ :: rest => pyIntHex (joinWithSep "_0x".data rest)
    | [] => none
  else some 0

/-! ## Helper lemmas -/

/-- `startsWithBytes` holds on a list extending the needle itself. -/
lemma startsWithBytes_append_self (p x : List Nat) :
    startsWithBytes p (p ++ x) = true := by
  induction p with
  | nil => rfl
  | cons a t ih => simp [startsWithBytes, ih]

/-- After a match, the scan skips exactly the matched bytes: with a
pending skip of `t.length`, counting over `t ++ x` continues at `x`. -/
lemma bytesCountGo_skip (needle t x : List Nat) :
    bytesCountGo needle (t ++ x) t.length = bytesCountGo needle x 0 := by
  induction t with
  | nil => rfl
  | cons a t ih => simpa [bytesCountGo] using ih

/-- Non-overlapping count of a non-empty needle over `n` back-to-back
copies of itself is exactly `n`. -/
lemma bytesCount_repeatBytes (p : List Nat) (hp : p ≠ []) (n : Nat) :
    bytesCount p (repeatBytes n p) = n := by
  unfold bytesCount
  rw [if_neg hp]
  induction n with
  | zero => rfl
  | succ n ih =>
    obtain ⟨a, t, rfl⟩ : ∃ a t, p = a :: t := by
      cases p with
      | nil => exact absurd rfl hp
      | cons a t => exact ⟨a, t, rfl⟩
    show bytesCountGo (a :: t) ((a :: t) ++ repeatBytes n (a :: t)) 0 = n + 1
    rw [show ((a :: t) ++ repeatBytes n (a :: t) : List Nat)
        = a :: (t ++ repeatBytes n (a :: t)) from rfl]
    rw [bytesCountGo]
    rw [if_pos (by
      simpa using startsWithBytes_append_self (a :: t) (repeatBytes n (a :: t)))]
    have h1 : (a :: t : List Nat).length - 1 = t.length := by simp
    rw [h1, bytesCountGo_skip, ih]
    omega

/-- The response accumulated over `n` receive iterations contains a
terminator iff one of the first `n` chunks does. -/
lemma recvAccum_any (chunks : Nat → List Char) (n : Nat) :
    (recvAccum chunks n).any isRecvTerm = true
      ↔ ∃ k, k < n ∧ (chunks k).any isRecvTerm = true := by
  induction n with
  | zero => simp [recvAccum]
  | succ n ih =>
    rw [recvAccum, List.any_append]
    constructor
    · intro h
      rcases Bool.or_eq_true_iff.mp h with h | h
      · obtain ⟨k, hk, hk2⟩ := ih.mp h
        exact ⟨k, by omega, hk2⟩
      · exact ⟨n, by omega, h⟩
    · rintro ⟨k, hk, hk2⟩
      rcases Nat.lt_succ_iff_lt_or_eq.mp hk with h | rfl
      · exact Bool.or_eq_true_iff.mpr (Or.inl (ih.mpr ⟨k, h, hk2⟩))
      · exact Bool.or_eq_true_iff.mpr (Or.inr hk2)

/-- The receive loop of `_receive_response` halts exactly when some
delivered chunk contains a terminator or acknowledgement character. -/
lemma receiveHalts_iff_aux (chunks : Nat → List Char) :
    receiveHalts chunks ↔ ∃ k, (chunks k).any isRecvTerm = true := by
  unfold receiveHalts
  constructor
  · rintro ⟨n, hn⟩
    obtain ⟨k, _, hk2⟩ := (recvAccum_any chunks (n + 1)).mp hn
    exact ⟨k, hk2⟩
  · rintro ⟨k, hk⟩
    exact ⟨k, (recvAccum_any chunks (k + 1)).mpr ⟨k, by omega, hk⟩⟩

/-- The stage classifier never returns `"freertos_main"` or
`"pattern_painting"`: both table entries are shadowed by the earlier
`"camkes_init"` entry, whose range `[0x40000000, 0x40001000)` is a
superset of theirs. -/
lemma determineBootStage_ne (pc : Nat) :
    determineBootStage pc ≠ "freertos_main"
      ∧ determineBootStage pc ≠ "pattern_painting" := by
  unfold determineBootStage bootStages
  simp only [determineBootStageT]
  split_ifs with h1 h2 h3 h4 h5 h6 h7 <;>
    first
      | (constructor <;> decide)
      | (exfalso; omega)

lemma save_memory_snapshot_snd (db : DBState) (sid : Nat) (stage : String) (pc : Nat)
    (md : List (String × List Nat)) :
    (save_memory_snapshot db sid stage pc md).2 = (buildRegionRows md).2 := by
  unfold save_memory_snapshot
  cases hb : (buildRegionRows md).2 <;> simp [hb]

lemma save_memory_snapshot_traces (db : DBState) (sid : Nat) (stage : String) (pc : Nat)
    (md : List (String × List Nat)) :
    (save_memory_snapshot db sid stage pc md).1.traces = db.traces := by
  unfold save_memory_snapshot
  cases hb : (buildRegionRows md).2 <;> simp [hb]

lemma save_memory_snapshot_snapshots (db : DBState) (sid : Nat) (stage : String) (pc : Nat)
    (md : List (String × List Nat)) :
    (save_memory_snapshot db sid stage pc md).1.snapshots
      = db.snapshots ++
        [{ session_id := sid, boot_stage := stage, pc_address := pc
           region_names := md.map (fun r => r.1)
           total_size := (md.map (fun r => r.2.length)).sum }] := by
  unfold save_memory_snapshot
  cases hb : (buildRegionRows md).2 <;> simp [hb]

lemma save_memory_snapshot_regionRows (db : DBState) (sid : Nat) (stage : String) (pc : Nat)
    (md : List (String × List Nat)) :
    (save_memory_snapshot db sid stage pc md).1.regionRows
      = db.regionRows ++ (buildRegionRows md).1 := by
  unfold save_memory_snapshot
  cases hb : (buildRegionRows md).2 <;> simp [hb]

lemma save_memory_snapshot_ended (db : DBState) (sid : Nat) (stage : String) (pc : Nat)
    (md : List (String × List Nat)) :
    (save_memory_snapshot db sid stage pc md).1.ended = db.ended := by
  unfold save_memory_snapshot
  cases hb : (buildRegionRows md).2 <;> simp [hb]

/-- Every entry of a region row built for a `(label, data)` pair, in
terms of the label and data. -/
lemma mkRegionRow_fields (l : String) (d : List Nat) (row : RegionRow)
    (h : mkRegionRow l d = some row) :
    row.region_name = l ∧ row.data = d ∧ row.size = d.length ∧
    row.end_address = row.start_address + (d.length : Int) ∧
    regionStartAddress l = some row.start_address ∧
    row.expected_pattern = expectedPatternFor l ∧
    (∀ w, expectedPatternFor l = some w →
      row.pattern_matches = bytesCount (packLE32 w) d) := by
  unfold mkRegionRow at h
  cases hs : regionStartAddress l with
  | none => rw [hs] at h; exact absurd h (by simp)
  | some v =>
    rw [hs] at h
    simp only [Option.some_inj] at h
    subst h
    refine ⟨rfl, rfl, rfl, rfl, rfl, rfl, ?_⟩
    intro w hw
    simp [hw]

/-- The `for` loop of `save_memory_snapshot` succeeds when every
label's address parse succeeds. -/
lemma buildRegionRows_ok (md : List (String × List Nat))
    (h : ∀ p ∈ md, regionStartAddress p.1 ≠ none) :
    (buildRegionRows md).2 = true := by
  induction md with
  | nil => rfl
  | cons p rest ih =>
    obtain ⟨l, d⟩ := p
    have h1 : regionStartAddress l ≠ none := h (l, d) (by simp)
    unfold buildRegionRows
    unfold mkRegionRow
    cases hs : regionStartAddress l with
    | none => exact absurd hs h1
    | some v =>
      simp only []
      exact ih (fun q hq => h q (by simp [hq]))

/-- The rows built by `save_memory_snapshot`'s loop carry the
dictionary keys as region names, in dictionary order. -/
lemma buildRegionRows_names (md : List (String × List Nat))
    (h : ∀ p ∈ md, regionStartAddress p.1 ≠ none) :
    (buildRegionRows md).1.map (fun r => r.region_name)
      = md.map (fun p => p.1) := by
  induction md with
  | nil => rfl
  | cons p rest ih =>
    obtain ⟨l, d⟩ := p
    have h1 : regionStartAddress l ≠ none := h (l, d) (by simp)
    unfold buildRegionRows
    unfold mkRegionRow
    cases hs : regionStartAddress l with
    | none => exact absurd hs h1
    | some v =>
      simp only [List.map_cons]
      rw [ih (fun q hq => h q (by simp [hq]))]

/-- Every row built by `save_memory_snapshot`'s loop comes from one
dictionary entry. -/
lemma buildRegionRows_mem (md : List (String × List Nat)) (row : RegionRow)
    (hrow : row ∈ (buildRegionRows md).1) :
    ∃ p ∈ md, mkRegionRow p.1 p.2 = some row := by
  induction md with
  | nil => simp [buildRegionRows] at hrow
  | cons p rest ih =>
    obtain ⟨l, d⟩ := p
    unfold buildRegionRows at hrow
    cases hs : mkRegionRow l d with
    | none => rw [hs] at hrow; simp at hrow
    | some r =>
      rw [hs] at hrow
      simp only [List.mem_cons] at hrow
      rcases hrow with rfl | hrow
      · exact ⟨(l, d), by simp, hs⟩
      · obtain ⟨q, hq, hq2⟩ := ih hrow
        exact ⟨q, by simp [hq], hq2⟩

/-- Every captured entry is one configured region's label together
with the bytes its read returned. -/
lemma captureMemoryRegions_mem (mem : Nat → Nat → List Nat)
    (p : String × List Nat) (hp : p ∈ captureMemoryRegions mem) :
    ∃ r ∈ memoryRegions, p.1 = regionLabel r.1 r.2.1 ∧ p.2 = mem r.2.1 r.2.2 := by
  unfold captureMemoryRegions at hp
  rw [List.mem_filterMap] at hp
  obtain ⟨r, hr, hf⟩ := hp
  by_cases hd : mem r.2.1 r.2.2 = []
  · simp [hd] at hf
  · simp only [hd, if_neg, if_false] at hf
    obtain rfl : (regionLabel r.1 r.2.1, mem r.2.1 r.2.2) = p := by
      injection hf
    exact ⟨r, hr, rfl, rfl⟩

/-- Each of the six configured region labels parses back to an
address. -/
lemma memoryRegions_labels_parse :
    ∀ r ∈ memoryRegions, regionStartAddress (regionLabel r.1 r.2.1) ≠ none := by
  decide

/-- A snapshot of the captured regions never raises: all generated
labels have the `name_0x<8 hex digits>` shape. -/
lemma buildRegionRows_capture_ok (mem : Nat → Nat → List Nat) :
    (buildRegionRows (captureMemoryRegions mem)).2 = true := by
  apply buildRegionRows_ok
  intro p hp
  obtain ⟨r, hr, h1, _⟩ := captureMemoryRegions_mem mem p hp
  rw [h1]
  exact memoryRegions_labels_parse r hr

lemma save_capture_snd (db : DBState) (sid : Nat) (stage : String) (pc : Nat)
    (mem : Nat → Nat → List Nat) :
    (save_memory_snapshot db sid stage pc (captureMemoryRegions mem)).2 = true := by
  rw [save_memory_snapshot_snd]
  exact buildRegionRows_capture_ok mem

/-- The captured region names are exactly the labels of the configured
regions whose read returned non-empty bytes, in configuration order. -/
lemma captureMemoryRegions_names (mem : Nat → Nat → List Nat) :
    (captureMemoryRegions mem).map (fun p => p.1)
      = (memoryRegions.filter
          (fun r => !(decide (mem r.2.1 r.2.2 = [])))).map
          (fun r => regionLabel r.1 r.2.1) := by
  unfold captureMemoryRegions
  generalize memoryRegions = l
  induction l with
  | nil => rfl
  | cons r rest ih =>
    by_cases hd : mem r.2.1 r.2.2 = [] <;>
      simp [List.filterMap_cons, List.filter_cons, hd, ih]

/-- When every configured region's read returns empty bytes, nothing
is captured. -/
lemma captureMemoryRegions_empty (mem : Nat → Nat → List Nat)
    (h : ∀ r ∈ memoryRegions, mem r.2.1 r.2.2 = []) :
    captureMemoryRegions mem = [] := by
  unfold captureMemoryRegions
  rw [List.filterMap_eq_nil_iff]
  intro r hr
  simp [h r hr]

/-- Effect of one iteration tail: exactly one trace row is appended,
carrying the (already updated) current stage; the loop continues iff
`single_step` succeeded; the stage is unchanged by the tail. -/
lemma stepTail_spec (inp : StepInput) (sid i : Nat) (st : RecState) :
    (stepTail inp sid i st).1.db.traces
      = st.db.traces ++
        [{ session_id := sid, sequence_number := i, pc_address := inp.pc
           boot_stage := st.currentStage }] ∧
    (stepTail inp sid i st).2 = inp.stepOk ∧
    (stepTail inp sid i st).1.currentStage = st.currentStage := by
  unfold stepTail
  by_cases h : inp.stepOk = false
  · simp [h, save_instruction_trace]
  · have h' : inp.stepOk = true := by revert h; cases inp.stepOk <;> simp
    by_cases h2 : st.currentStage = "pattern_painting" ∧ i % 5000 = 0
    · simp [h', h2, save_instruction_trace, save_memory_snapshot_traces,
        save_capture_snd]
    · simp [h', h2, save_instruction_trace]

/-- The iteration tail only adds snapshots through the supplementary
pattern-painting branch; outside that stage it adds none. -/
lemma stepTail_snapshots (inp : StepInput) (sid i : Nat) (st : RecState)
    (h : st.currentStage ≠ "pattern_painting") :
    (stepTail inp sid i st).1.db.snapshots = st.db.snapshots := by
  unfold stepTail
  have h2 : ¬(st.currentStage = "pattern_painting" ∧ i % 5000 = 0) :=
    fun hc => h hc.1
  by_cases hok : inp.stepOk = false
  · simp [hok, save_instruction_trace]
  · simp [hok, h2, save_instruction_trace]

/-- Effect of one full loop iteration: one trace row is appended,
tagged with the stage classified from this step's program counter; the
loop continues iff `single_step` succeeded; the recorder's stage ends
up equal to the classified stage. -/
lemma recordStep_spec (inp : StepInput) (sid i : Nat) (st : RecState) :
    (recordStep inp sid i st).1.db.traces
      = st.db.traces ++
        [{ session_id := sid, sequence_number := i, pc_address := inp.pc
           boot_stage := determineBootStage inp.pc }] ∧
    (recordStep inp sid i st).2 = inp.stepOk ∧
    (recordStep inp sid i st).1.currentStage = determineBootStage inp.pc := by
  unfold recordStep
  by_cases h1 : determineBootStage inp.pc ≠ st.currentStage
      ∧ determineBootStage inp.pc ≠ "unknown"
  · simp only [if_pos h1, save_capture_snd, if_true]
    have hs := stepTail_spec inp sid i
      { currentStage := determineBootStage inp.pc
        db := (save_memory_snapshot st.db sid (determineBootStage inp.pc) inp.pc
          (captureMemoryRegions inp.mem)).1 }
    simp only [save_memory_snapshot_traces] at hs
    exact hs
  · simp only [if_neg h1]
    exact stepTail_spec inp sid i { st with currentStage := determineBootStage inp.pc }

/-- Any snapshot present after one loop iteration was either already
present or is tagged with the stage classified from this step's
program counter. -/
lemma recordStep_snapshots (inp : StepInput) (sid i : Nat) (st : RecState) :
    ∀ s ∈ (recordStep inp sid i st).1.db.snapshots,
      s ∈ st.db.snapshots ∨ s.boot_stage = determineBootStage inp.pc := by
  unfold recordStep
  by_cases h1 : determineBootStage inp.pc ≠ st.currentStage
      ∧ determineBootStage inp.pc ≠ "unknown"
  · simp only [if_pos h1, save_capture_snd, if_true]
    intro s hs
    rw [stepTail_snapshots inp sid i
      { currentStage := determineBootStage inp.pc
        db := (save_memory_snapshot st.db sid (determineBootStage inp.pc) inp.pc
          (captureMemoryRegions inp.mem)).1 }
      (determineBootStage_ne inp.pc).2] at hs
    simp only [save_memory_snapshot_snapshots, List.mem_append,
      List.mem_singleton] at hs
    rcases hs with hs | rfl
    · exact Or.inl hs
    · exact Or.inr rfl
  · simp only [if_neg h1]
    intro s hs
    rw [stepTail_snapshots inp sid i
      { st with currentStage := determineBootStage inp.pc }
      (determineBootStage_ne inp.pc).2] at hs
    exact Or.inl hs

/-- Sequence numbers stay gap-free: if the traces so far are numbered
`0, …, i-1`, they are numbered `0, …, len-1` after the loop runs from
index `i`. -/
lemma runFrom_range (inputs : Nat → StepInput) (sid : Nat) :
    ∀ (fuel i : Nat) (st : RecState),
      st.db.traces.map (fun t => t.sequence_number) = List.range i →
      st.db.traces.length = i →
      (runFrom inputs sid i fuel st).db.traces.map (fun t => t.sequence_number)
        = List.range (runFrom inputs sid i fuel st).db.traces.length := by
  intro fuel
  induction fuel with
  | zero =>
    intro i st h1 h2
    simp only [runFrom]
    rw [h1, h2]
  | succ fuel ih =>
    intro i st h1 h2
    obtain ⟨ht, hc, _⟩ := recordStep_spec (inputs i) sid i st
    have h1' : (recordStep (inputs i) sid i st).1.db.traces.map
        (fun t => t.sequence_number) = List.range (i + 1) := by
      rw [ht, List.map_append, h1, List.range_succ]
      rfl
    have h2' : (recordStep (inputs i) sid i st).1.db.traces.length = i + 1 := by
      rw [ht, List.length_append, h2]
      rfl
    simp only [runFrom]
    by_cases hck : (recordStep (inputs i) sid i st).2 = true
    · rw [if_pos hck]
      exact ih (i + 1) _ h1' h2'
    · rw [if_neg hck, h1', h2']

/-- Every trace row written by the loop is tagged with the stage
classified from its own program counter. -/
lemma runFrom_stages (inputs : Nat → StepInput) (sid : Nat) :
    ∀ (fuel i : Nat) (st : RecState),
      (∀ t ∈ st.db.traces, t.boot_stage = determineBootStage t.pc_address) →
      ∀ t ∈ (runFrom inputs sid i fuel st).db.traces,
        t.boot_stage = determineBootStage t.pc_address := by
  intro fuel
  induction fuel with
  | zero =>
    intro i st h
    simpa only [runFrom] using h
  | succ fuel ih =>
    intro i st h
    obtain ⟨ht, _, _⟩ := recordStep_spec (inputs i) sid i st
    have h' : ∀ t ∈ (recordStep (inputs i) sid i st).1.db.traces,
        t.boot_stage = determineBootStage t.pc_address := by
      intro t hmem
      rw [ht] at hmem
      rcases List.mem_append.mp hmem with hl | hr
      · exact h t hl
      · rw [List.mem_singleton] at hr
        subst hr
        rfl
    simp only [runFrom]
    by_cases hck : (recordStep (inputs i) sid i st).2 = true
    · rw [if_pos hck]
      exact ih (i + 1) _ h'
    · rw [if_neg hck]
      exact h'

/-- The loop never persists a snapshot tagged `"freertos_main"` (the
classifier cannot produce that stage). -/
lemma runFrom_no_freertos (inputs : Nat → StepInput) (sid : Nat) :
    ∀ (fuel i : Nat) (st : RecState),
      (∀ s ∈ st.db.snapshots, s.boot_stage ≠ "freertos_main") →
      ∀ s ∈ (runFrom inputs sid i fuel st).db.snapshots,
        s.boot_stage ≠ "freertos_main" := by
  intro fuel
  induction fuel with
  | zero =>
    intro i st h
    simpa only [runFrom] using h
  | succ fuel ih =>
    intro i st h
    have h' : ∀ s ∈ (recordStep (inputs i) sid i st).1.db.snapshots,
        s.boot_stage ≠ "freertos_main" := by
      intro s hmem
      rcases recordStep_snapshots (inputs i) sid i st s hmem with hl | hst
      · exact h s hl
      · rw [hst]
        exact (determineBootStage_ne (inputs i).pc).1
    simp only [runFrom]
    by_cases hck : (recordStep (inputs i) sid i st).2 = true
    · rw [if_pos hck]
      exact ih (i + 1) _ h'
    · rw [if_neg hck]
      exact h'

/-- With every single step succeeding, the loop appends exactly one
trace row per unit of budget. -/
lemma runFrom_length_all_ok (inputs : Nat → StepInput) (sid : Nat)
    (hok : ∀ k, (inputs k).stepOk = true) :
    ∀ (fuel i : Nat) (st : RecState),
      (runFrom inputs sid i fuel st).db.traces.length
        = st.db.traces.length + fuel := by
  intro fuel
  induction fuel with
  | zero =>
    intro i st
    simp only [runFrom]
    omega
  | succ fuel ih =>
    intro i st
    obtain ⟨ht, hc, _⟩ := recordStep_spec (inputs i) sid i st
    have hck : (recordStep (inputs i) sid i st).2 = true := by
      rw [hc]
      exact hok i
    simp only [runFrom]
    rw [if_pos hck, ih (i + 1) _, ht, List.length_append]
    simp only [List.length_singleton]
    omega

/-- With the single step first failing at index `m`, the loop stops
right after appending the trace row of index `m`. -/
lemma runFrom_stop (inputs : Nat → StepInput) (sid m : Nat)
    (hpre : ∀ k, k < m → (inputs k).stepOk = true)
    (hm : (inputs m).stepOk = false) :
    ∀ (fuel i : Nat) (st : RecState), i ≤ m → m < i + fuel →
      (runFrom inputs sid i fuel st).db.traces.length
        = st.db.traces.length + (m + 1 - i) := by
  intro fuel
  induction fuel with
  | zero =>
    intro i st h1 h2
    omega
  | succ fuel ih =>
    intro i st h1 h2
    obtain ⟨ht, hc, _⟩ := recordStep_spec (inputs i) sid i st
    have hlen : (recordStep (inputs i) sid i st).1.db.traces.length
        = st.db.traces.length + 1 := by
      rw [ht, List.length_append]
      rfl
    simp only [runFrom]
    by_cases hi : i = m
    · subst hi
      have hck : ¬((recordStep (inputs i) sid i st).2 = true) := by
        rw [hc, hm]
        simp
      rw [if_neg hck, hlen]
      omega
    · have hi' : i < m := by omega
      have hck : (recordStep (inputs i) sid i st).2 = true := by
        rw [hc]
        exact hpre i hi'
      rw [if_pos hck, ih (i + 1) _ (by omega) (by omega), hlen]
      omega

/-! ## Claims -/

/-- C1, counterexample: `save_memory_snapshot` stores a region under a
label containing "stack" whose persisted `pattern_matches` is `1`
although the region's bytes contain no 4-byte-aligned occurrence of
little-endian `0xDEADBEEF` (the single occurrence sits at byte offset
1): the stored count is not the count of 4-byte-aligned occurrences. -/
theorem C1_counterexample :
    (save_memory_snapshot DBState.empty 1 "stage" 0
        [("stack", [0, 239, 190, 173, 222, 0, 0, 0])]).1.regionRows.map
        (fun r => r.pattern_matches) = [1] ∧
    expectedPatternFor "stack" = some 0xDEADBEEF ∧
    claimAlignedMatches (packLE32 0xDEADBEEF) [0, 239, 190, 173, 222, 0, 0, 0]
      = 0 := by
  decide

/-- C1, amended: for every region persisted by `save_memory_snapshot`
whose label selects an expected pattern word, the stored
`pattern_matches` equals the number of non-overlapping occurrences of
the word's little-endian byte encoding at ANY byte offset (Python's
`bytes.count`, leftmost-first), not only at 4-byte-aligned ones; in
particular a region of `n` repetitions of the little-endian pattern
word yields `pattern_matches = n` (so the 2048-repetition scenario
yields 2048). -/
theorem C1_theorem :
    (∀ (db : DBState) (sid : Nat) (stage : String) (pc : Nat)
        (md : List (String × List Nat)),
      (save_memory_snapshot db sid stage pc md).1.regionRows
        = db.regionRows ++ (buildRegionRows md).1) ∧
    (∀ (md : List (String × List Nat)) (row : RegionRow),
      row ∈ (buildRegionRows md).1 →
      row.expected_pattern = expectedPatternFor row.region_name ∧
      ∀ w, row.expected_pattern = some w →
        row.pattern_matches = bytesCount (packLE32 w) row.data) ∧
    (∀ n : Nat,
      (buildRegionRows
          [("stack_region", repeatBytes n (packLE32 0xDEADBEEF))]).1.map
        (fun r => r.pattern_matches) = [n]) := by
  refine ⟨save_memory_snapshot_regionRows, ?_, ?_⟩
  · intro md row hrow
    obtain ⟨p, hp, hmk⟩ := buildRegionRows_mem md row hrow
    obtain ⟨hname, hdata, _, _, _, hep, hpm⟩ := mkRegionRow_fields p.1 p.2 row hmk
    constructor
    · rw [hname]
      exact hep
    · intro w hw
      have hew : expectedPatternFor p.1 = some w := by
        rw [← hep]
        exact hw
      rw [hdata]
      exact hpm w hew
  · intro n
    have h1 : regionStartAddress "stack_region" = some 0 := by decide
    have h2 : expectedPatternFor "stack_region" = some 0xDEADBEEF := by decide
    simp only [buildRegionRows, mkRegionRow, h1, h2]
    simp only [List.map_cons, List.map_nil]
    rw [bytesCount_repeatBytes (packLE32 0xDEADBEEF) (by decide) n]

/-- C1, witness: a concrete stack-labelled region row built by the
store satisfies the amended pattern-count law, and the `n`-repetition
instance evaluated at a concrete list. -/
theorem C1_witness :
    ({ region_name := "stack", start_address := 0, end_address := 1, size := 1,
       data := [0], expected_pattern := some 0xDEADBEEF, pattern_matches := 0 } :
        RegionRow).pattern_matches
      = bytesCount (packLE32 0xDEADBEEF)
          ({ region_name := "stack", start_address := 0, end_address := 1,
             size := 1, data := [0], expected_pattern := some 0xDEADBEEF,
             pattern_matches := 0 } : RegionRow).data :=
  (C1_theorem.2.1 [("stack", [0])] _ (by decide)).2 0xDEADBEEF rfl

/-- Step inputs for the C2 counterexample: the program counter sits at
`0x40000e70` (inside the configured `freertos_main` range) from the
first step on, so the run enters that range exactly once and stays. -/
def c2inputs : Nat → StepInput :=
  fun _ => { pc := 0x40000e70, mem := fun _ _ => [], stepOk := true }

/-- C2, counterexample: a run whose program counter enters the
configured `freertos_main` range `[0x40000e70, 0x40001000)` at step 0
and stays there persists ZERO snapshot rows tagged `"freertos_main"`,
not one — the single snapshot taken at the transition is tagged
`"camkes_init"`, because the earlier `camkes_init` table entry
(`[0x40000000, 0x40001000)`) shadows the `freertos_main` entry under
first-match classification. -/
theorem C2_counterexample :
    ((0x40000e70 : Nat) ≤ 0x40000e70 ∧ (0x40000e70 : Nat) < 0x40001000) ∧
    ((runSession c2inputs 1 2).snapshots.filter
        (fun s => s.boot_stage == "freertos_main")).length = 0 ∧
    (runSession c2inputs 1 2).snapshots.map (fun s => s.boot_stage)
      = ["camkes_init"] := by
  decide

/-- C2, amended: no recorder run ever persists a memory snapshot row
tagged with boot stage `"freertos_main"` (in particular, a run whose
program counter enters the `freertos_main` range exactly once persists
zero such rows, not one): the `camkes_init` entry precedes the
`freertos_main` entry in the stage table and its range is a superset,
so first-match classification never yields `"freertos_main"`. -/
theorem C2_theorem :
    ∀ (inputs : Nat → StepInput) (sid budget : Nat),
      ((runSession inputs sid budget).snapshots.filter
          (fun s => s.boot_stage == "freertos_main")).length = 0 := by
  intro inputs sid budget
  have h := runFrom_no_freertos inputs sid budget 0
    { currentStage := "unknown", db := DBState.empty }
    (by intro s hs; simp [DBState.empty] at hs)
  have hsnap : (runSession inputs sid budget).snapshots
      = (record_boot_sequence inputs sid budget).db.snapshots := rfl
  rw [hsnap]
  simp only [List.length_eq_zero, List.filter_eq_nil_iff]
  intro s hs
  simp only [beq_iff_eq]
  exact h s hs

/-- Step inputs for the C3 theorems: the program counter sits at
`0x60000000` (the `elfloader` range) from the first step on. -/
def c3inputs : Nat → StepInput :=
  fun _ => { pc := 0x60000000, mem := fun _ _ => [], stepOk := true }

/-- C3, counterexample: at the start of step 0 the recorder's
current-stage value is `"unknown"`, a stage transition to
`"elfloader"` is detected during that step, and the trace row of step
0 is tagged `"elfloader"` — the post-transition value, not the value
as of step start. -/
theorem C3_counterexample :
    (record_boot_sequence c3inputs 1 0).currentStage = "unknown" ∧
    (record_boot_sequence c3inputs 1 1).db.traces.map (fun t => t.boot_stage)
      = ["elfloader"] ∧
    ("elfloader" : String) ≠ "unknown" := by
  decide

/-- C3, amended: every instruction trace row persisted by the Boot
Recorder is tagged with the recorder's current-stage value AFTER any
stage transition detected during the same step has been applied —
equivalently, with the stage classified from that step's own program
counter. -/
theorem C3_theorem :
    ∀ (inputs : Nat → StepInput) (sid budget : Nat),
      ∀ t ∈ (record_boot_sequence inputs sid budget).db.traces,
        t.boot_stage = determineBootStage t.pc_address := by
  intro inputs sid budget
  exact runFrom_stages inputs sid budget 0
    { currentStage := "unknown", db := DBState.empty }
    (by intro t ht; simp [DBState.empty] at ht)

/-- C3, witness: the trace row of the concrete one-step run is tagged
with the stage classified from its program counter. -/
theorem C3_witness :
    ({ session_id := 1, sequence_number := 0, pc_address := 0x60000000,
       boot_stage := "elfloader" } : TraceRow).boot_stage
      = determineBootStage
          ({ session_id := 1, sequence_number := 0, pc_address := 0x60000000,
             boot_stage := "elfloader" } : TraceRow).pc_address :=
  C3_theorem c3inputs 1 1 _ (by decide)

/-- C4, counterexample: on an incoming byte stream that never contains
a frame terminator or acknowledgement character (every chunk is
`"A"`), the receive loop of `_receive_response` never terminates — no
timeout bounds it, contradicting the claim that every operation's
receive loop terminates on such streams. -/
theorem C4_counterexample : ¬ receiveHalts (fun _ => ['A']) := by
  rw [receiveHalts_iff_aux]
  rintro ⟨k, hk⟩
  exact absurd hk (by decide)

/-- C4, amended: the receive loop of `_receive_response` terminates
exactly when some received chunk contains a `'#'`, `'+'` or `'-'`
character; there is no timeout, so on a stream never containing one
the call blocks indefinitely instead of returning a failure value. -/
theorem C4_theorem :
    ∀ chunks : Nat → List Char,
      receiveHalts chunks ↔ ∃ k, (chunks k).any isRecvTerm = true :=
  receiveHalts_iff_aux

/-- Step inputs for the C5 witness: every region read returns the
empty byte sequence (an unreachable address), every single step
succeeds. -/
def c5inputs : Nat → StepInput :=
  fun _ => { pc := 0, mem := fun _ _ => [], stepOk := true }

/-- C5: `read_memory` returns the empty byte sequence on every
transport error (`none`), on every response without `$…#` framing, and
on every response whose hex payload is malformed — it never raises to
its caller; and the Recorder's stepping loop runs through its entire
budget regardless of what the region reads return (in particular when
they all return empty). -/
theorem C5_theorem :
    read_memory_model none = [] ∧
    (∀ r : String, (startsWithChars "$".data r.data && r.data.contains '#') = false →
      read_memory_model (some r) = []) ∧
    (∀ r : String, bytesFromHex (respPayload r) = none →
      read_memory_model (some r) = []) ∧
    (∀ (inputs : Nat → StepInput) (sid budget : Nat),
      (∀ k, (inputs k).stepOk = true) →
      (record_boot_sequence inputs sid budget).db.traces.length = budget) := by
  refine ⟨rfl, ?_, ?_, ?_⟩
  · intro r h
    have hn : ¬((startsWithChars "$".data r.data && r.data.contains '#') = true) := by
      rw [h]
      simp
    simp only [read_memory_model]
    rw [if_neg hn]
  · intro r h
    by_cases hc : (startsWithChars "$".data r.data && r.data.contains '#') = true
    · simp only [read_memory_model]
      rw [if_pos hc, h]
    · simp only [read_memory_model]
      rw [if_neg hc]
  · intro inputs sid budget hok
    have h := runFrom_length_all_ok inputs sid hok budget 0
      { currentStage := "unknown", db := DBState.empty }
    simpa [record_boot_sequence, DBState.empty] using h

/-- C5, witness: a stub error reply (no `$…#` framing), a framed but
malformed hex payload, and a transport error all yield empty bytes;
and a 3-step run whose reads all return empty still writes 3 trace
rows. -/
theorem C5_witness :
    read_memory_model (some "E01") = [] ∧
    read_memory_model (some "$zz#00") = [] ∧
    read_memory_model none = [] ∧
    (record_boot_sequence c5inputs 1 3).db.traces.length = 3 :=
  ⟨C5_theorem.2.1 "E01" (by decide),
   C5_theorem.2.2.1 "$zz#00" (by decide),
   C5_theorem.1,
   C5_theorem.2.2.2 c5inputs 1 3 (fun _ => rfl)⟩

/-- C6: boot-stage classification is the pure first-match lookup: over
any ordered range table, it returns `"unknown"` when no entry's
half-open range contains the program counter, and returns the name of
entry `i` whenever entry `i`'s range contains the program counter and
no earlier entry's range does (so on overlapping ranges the earlier
entry always wins). -/
theorem C6_theorem :
    ∀ (tbl : List (String × Nat × Nat)) (pc : Nat),
      ((∀ e ∈ tbl, ¬(e.2.1 ≤ pc ∧ pc < e.2.2)) →
        determineBootStageT tbl pc = "unknown") ∧
      (∀ (i : Nat) (hi : i < tbl.length),
        (tbl.get ⟨i, hi⟩).2.1 ≤ pc →
        pc < (tbl.get ⟨i, hi⟩).2.2 →
        (∀ (j : Nat) (hj : j < i),
          ¬((tbl.get ⟨j, hj.trans hi⟩).2.1 ≤ pc
            ∧ pc < (tbl.get ⟨j, hj.trans hi⟩).2.2)) →
        determineBootStageT tbl pc = (tbl.get ⟨i, hi⟩).1) := by
  intro tbl pc
  induction tbl with
  | nil =>
    constructor
    · intro _
      rfl
    · intro i hi
      exact absurd hi (Nat.not_lt_zero i)
  | cons e rest ih =>
    obtain ⟨n, s, e2⟩ := e
    constructor
    · intro h
      have he : ¬((n, s, e2).2.1 ≤ pc ∧ pc < (n, s, e2).2.2) := h _ (by simp)
      simp only [determineBootStageT]
      rw [if_neg he]
      exact ih.1 (fun q hq => h q (by simp [hq]))
    · intro i hi h1 h2 h3
      match i, hi with
      | 0, hi =>
        simp only [determineBootStageT]
        rw [if_pos ⟨h1, h2⟩]
        rfl
      | i + 1, hi =>
        have hhead : ¬((n, s, e2).2.1 ≤ pc ∧ pc < (n, s, e2).2.2) :=
          h3 0 (Nat.succ_pos i)
        simp only [determineBootStageT]
        rw [if_neg hhead]
        exact ih.2 i (Nat.lt_of_succ_lt_succ hi) h1 h2
          (fun j hj => h3 (j + 1) (Nat.succ_lt_succ hj))

/-- C6, witness: over the program's own stage table, a program counter
outside every range classifies as `"unknown"`, and `0x40000e70` (which
lies in both the `camkes_init` and the later `freertos_main` range)
classifies as the earlier `"camkes_init"`. -/
theorem C6_witness :
    determineBootStageT bootStages 0x50 = "unknown" ∧
    determineBootStageT bootStages 0x40000e70 = "camkes_init" := by
  constructor
  · exact (C6_theorem bootStages 0x50).1 (by decide)
  · exact (C6_theorem bootStages 0x40000e70).2 3 (by decide) (by decide)
      (by decide) (by decide)

/-- C7: for every recording session (any step inputs, any budget, any
early termination through single-step failure), the sequence numbers
of the persisted instruction trace rows are `0, 1, 2, …` in append
order — strictly increasing with no gaps. -/
theorem C7_theorem :
    ∀ (inputs : Nat → StepInput) (sid budget : Nat),
      (runSession inputs sid budget).traces.map (fun t => t.sequence_number)
        = List.range (runSession inputs sid budget).traces.length := by
  intro inputs sid budget
  exact runFrom_range inputs sid budget 0
    { currentStage := "unknown", db := DBState.empty } rfl rfl

/-- C8: when the single step first reports failure on the 37th step
(index 36) of a 1000-step budget, the session ends with exactly 37
trace rows, all of them committed, and the session's end timestamp
set. -/
theorem C8_theorem :
    ∀ (inputs : Nat → StepInput) (sid : Nat),
      (∀ k, k < 36 → (inputs k).stepOk = true) →
      (inputs 36).stepOk = false →
      (runSession inputs sid 1000).traces.length = 37 ∧
      (runSession inputs sid 1000).committedTraces = 37 ∧
      (runSession inputs sid 1000).ended = true := by
  intro inputs sid hpre hm
  have h := runFrom_stop inputs sid 36 hpre hm 1000 0
    { currentStage := "unknown", db := DBState.empty }
    (by omega) (by omega)
  have hlen : (record_boot_sequence inputs sid 1000).db.traces.length = 37 := by
    simpa [record_boot_sequence, DBState.empty] using h
  refine ⟨hlen, ?_, rfl⟩
  show (end_boot_session (record_boot_sequence inputs sid 1000).db).committedTraces
      = 37
  simpa [end_boot_session] using hlen

/-- Step inputs for the C8 witness: single step succeeds up to index
35 and first fails at index 36 (the 37th step). -/
def c8inputs : Nat → StepInput :=
  fun k => { pc := 0x123, mem := fun _ _ => [], stepOk := decide (k < 36) }

/-- C8, witness: the concrete first-failure-at-step-37 run with budget
1000 commits exactly 37 trace rows and sets the end timestamp. -/
theorem C8_witness :
    (runSession c8inputs 7 1000).traces.length = 37 ∧
    (runSession c8inputs 7 1000).committedTraces = 37 ∧
    (runSession c8inputs 7 1000).ended = true :=
  C8_theorem c8inputs 7
    (fun k hk => by simp only [c8inputs]; exact decide_eq_true hk)
    (by decide)

/-- C9: when the Recorder captures a snapshot, the persisted snapshot
row's region-name list covers exactly the configured regions whose
read returned non-empty bytes (in configuration order, under their
generated labels), its total size is the sum of their byte lengths,
one region row is written per kept region (no exception escapes), and
a snapshot row is still written when every read returned empty — with
an empty region list and total size 0. -/
theorem C9_theorem :
    ∀ (mem : Nat → Nat → List Nat) (db : DBState) (sid : Nat)
      (stage : String) (pc : Nat),
      (save_memory_snapshot db sid stage pc (captureMemoryRegions mem)).2
        = true ∧
      (save_memory_snapshot db sid stage pc (captureMemoryRegions mem)).1.snapshots
        = db.snapshots ++
          [{ session_id := sid, boot_stage := stage, pc_address := pc
             region_names := (captureMemoryRegions mem).map (fun p => p.1)
             total_size :=
               ((captureMemoryRegions mem).map (fun r => r.2.length)).sum }] ∧
      (captureMemoryRegions mem).map (fun p => p.1)
        = (memoryRegions.filter
            (fun r => !(decide (mem r.2.1 r.2.2 = [])))).map
            (fun r => regionLabel r.1 r.2.1) ∧
      (save_memory_snapshot db sid stage pc
          (captureMemoryRegions mem)).1.regionRows.map (fun r => r.region_name)
        = db.regionRows.map (fun r => r.region_name)
          ++ (captureMemoryRegions mem).map (fun p => p.1) ∧
      ((∀ r ∈ memoryRegions, mem r.2.1 r.2.2 = []) →
        captureMemoryRegions mem = []) := by
  intro mem db sid stage pc
  refine ⟨save_capture_snd db sid stage pc mem,
    save_memory_snapshot_snapshots db sid stage pc _,
    captureMemoryRegions_names mem, ?_, captureMemoryRegions_empty mem⟩
  rw [save_memory_snapshot_regionRows, List.map_append]
  congr 1
  apply buildRegionRows_names
  intro p hp
  obtain ⟨r, hr, h1, _⟩ := captureMemoryRegions_mem mem p hp
  rw [h1]
  exact memoryRegions_labels_parse r hr

/-- C9, witness: with every read returning empty bytes, the snapshot
row is still written, with an empty region list and total size 0, and
no region rows. -/
theorem C9_witness :
    captureMemoryRegions (fun _ _ => []) = [] ∧
    (save_memory_snapshot DBState.empty 4 "camkes_init" 9
        (captureMemoryRegions (fun _ _ => []))).1.snapshots
      = DBState.empty.snapshots ++
        [{ session_id := 4, boot_stage := "camkes_init", pc_address := 9
           region_names := (captureMemoryRegions (fun _ _ => [])).map
             (fun p => p.1)
           total_size := ((captureMemoryRegions (fun _ _ => [])).map
             (fun r => r.2.length)).sum }] :=
  ⟨(C9_theorem (fun _ _ => []) DBState.empty 4 "camkes_init" 9).2.2.2.2
      (fun _ _ => rfl),
   (C9_theorem (fun _ _ => []) DBState.empty 4 "camkes_init" 9).2.1⟩

/-- C10, counterexample: `save_memory_snapshot` persists, without
raising, a region row for the label `"stack_0x10_0x20"` with
`start_address = 16` — the number parsed from the portion BETWEEN the
first and second `"_0x"` — whereas the portion of the label following
the first `"_0x"`, namely `"10_0x20"`, is not a hexadecimal numeral at
all, so the claim's description of `start_address` has no value on
this persisted row. -/
theorem C10_counterexample :
    (save_memory_snapshot DBState.empty 1 "s" 0
        [("stack_0x10_0x20", [0])]).2 = true ∧
    (save_memory_snapshot DBState.empty 1 "s" 0
        [("stack_0x10_0x20", [0])]).1.regionRows.map (fun r => r.start_address)
      = [16] ∧
    claimStartAddress "stack_0x10_0x20" = none := by
  decide

/-- C10, amended: every region row persisted by `save_memory_snapshot`
satisfies `size = ` length of the stored raw bytes and
`end_address = start_address + size`, where `start_address` is the
hexadecimal number parsed from the portion of the label BETWEEN the
first and second occurrence of `"_0x"` (the whole remainder when
`"_0x"` occurs once — Python's `split('_0x')[1]`), and `0` when the
label contains no `"_0x"`. -/
theorem C10_theorem :
    (∀ (db : DBState) (sid : Nat) (stage : String) (pc : Nat)
        (md : List (String × List Nat)),
      (save_memory_snapshot db sid stage pc md).1.regionRows
        = db.regionRows ++ (buildRegionRows md).1) ∧
    (∀ (md : List (String × List Nat)) (row : RegionRow),
      row ∈ (buildRegionRows md).1 →
      row.size = row.data.length ∧
      row.end_address = row.start_address + (row.size : Int) ∧
      regionStartAddress row.region_name = some row.start_address) := by
  refine ⟨save_memory_snapshot_regionRows, ?_⟩
  intro md row hrow
  obtain ⟨p, hp, hmk⟩ := buildRegionRows_mem md row hrow
  obtain ⟨hname, hdata, hsize, hend, hstart, _, _⟩ :=
    mkRegionRow_fields p.1 p.2 row hmk
  refine ⟨?_, ?_, ?_⟩
  · rw [hdata]
    exact hsize
  · rw [hsize]
    exact hend
  · rw [hname]
    exact hstart

/-- C10, witness: a concrete persisted row (label with one `"_0x"`)
satisfies the amended size/address laws. -/
theorem C10_witness :
    ({ region_name := "stack_0x10", start_address := 16, end_address := 17,
       size := 1, data := [0], expected_pattern := some 0xDEADBEEF,
       pattern_matches := 0 } : RegionRow).size
      = ({ region_name := "stack_0x10", start_address := 16, end_address := 17,
           size := 1, data := [0], expected_pattern := some 0xDEADBEEF,
           pattern_matches := 0 } : RegionRow).data.length ∧
    ({ region_name := "stack_0x10", start_address := 16, end_address := 17,
       size := 1, data := [0], expected_pattern := some 0xDEADBEEF,
       pattern_matches := 0 } : RegionRow).end_address = 16 + 1 ∧
    regionStartAddress "stack_0x10" = some 16 := by
  have h := C10_theorem.2 [("stack_0x10", [0])]
    { region_name := "stack_0x10", start_address := 16, end_address := 17,
      size := 1, data := [0], expected_pattern := some 0xDEADBEEF,
      pattern_matches := 0 } (by decide)
  exact ⟨h.1, h.2.1, h.2.2⟩
